import Mathlib

/-!
Verification of `src/input-defs.h` from go-xwiimote.

The header is a compatibility shim: a sequence of 24 guarded fallback macro
definitions (`#ifndef NAME` / `#define NAME value` / `#endif`) for Linux
input-subsystem event codes.  We embed the C-preprocessor view of the file:
a macro environment is a map from macro names to optional numeric values,
and including the header folds the guarded definitions over the environment
in source order.
-/

namespace InputDefs

/-- A C-preprocessor macro environment: each macro name is either defined
with a numeric value or undefined. -/
abbrev Env : Type := String → Option Nat

/-- The environment in which no macro is defined. -/
def emptyEnv : Env := fun _ => none

/-- `#define name value`: bind `name` to `value`, leaving all other names
unchanged. -/
def defineMacro (env : Env) (name : String) (value : Nat) : Env :=
  fun n => if n = name then some value else env n

/-- One guarded block of the header,
`#ifndef name` / `#define name value` / `#endif`:
the definition is issued only when `name` is currently undefined. -/
def defineIfUndef (env : Env) (name : String) (value : Nat) : Env :=
  match env name with
  | some _ => env
  | none => defineMacro env name value

/-- The 24 (name, fallback value) pairs of `src/input-defs.h`, in source
order (lines 3-74). -/
def fallbackTable : List (String × Nat) :=
  [("BTN_EAST", 0x131),
   ("BTN_SOUTH", 0x130),
   ("BTN_NORTH", 0x133),
   ("BTN_WEST", 0x134),
   ("BTN_DPAD_LEFT", 0x222),
   ("BTN_DPAD_RIGHT", 0x223),
   ("BTN_DPAD_UP", 0x220),
   ("BTN_DPAD_DOWN", 0x221),
   ("ABS_CYMBAL_LEFT", 0x45),
   ("ABS_CYMBAL_RIGHT", 0x46),
   ("ABS_TOM_LEFT", 0x41),
   ("ABS_TOM_RIGHT", 0x42),
   ("ABS_TOM_FAR_RIGHT", 0x43),
   ("ABS_BASS", 0x48),
   ("ABS_HI_HAT", 0x49),
   ("BTN_FRET_FAR_UP", 0x224),
   ("BTN_FRET_UP", 0x225),
   ("BTN_FRET_MID", 0x226),
   ("BTN_FRET_LOW", 0x227),
   ("BTN_FRET_FAR_LOW", 0x228),
   ("BTN_STRUM_BAR_UP", 0x229),
   ("BTN_STRUM_BAR_DOWN", 0x22a),
   ("ABS_WHAMMY_BAR", 0x4b),
   ("ABS_FRET_BOARD", 0x4a)]

/-- Process a list of guarded definitions over an environment, in order. -/
def applyDefs (l : List (String × Nat)) (env : Env) : Env :=
  l.foldl (fun e p => defineIfUndef e p.1 p.2) env

/-- Including `input-defs.h`: process all 24 guarded definitions. -/
def includeHeader (env : Env) : Env :=
  applyDefs fallbackTable env

/-- The symbol/value table as written in section 4.1 of the specification,
transcribed from the spec's own table for refinement against
`fallbackTable`. -/
def specTable : List (String × Nat) :=
  [("BTN_EAST", 0x131),
   ("BTN_SOUTH", 0x130),
   ("BTN_NORTH", 0x133),
   ("BTN_WEST", 0x134),
   ("BTN_DPAD_LEFT", 0x222),
   ("BTN_DPAD_RIGHT", 0x223),
   ("BTN_DPAD_UP", 0x220),
   ("BTN_DPAD_DOWN", 0x221),
   ("ABS_CYMBAL_LEFT", 0x45),
   ("ABS_CYMBAL_RIGHT", 0x46),
   ("ABS_TOM_LEFT", 0x41),
   ("ABS_TOM_RIGHT", 0x42),
   ("ABS_TOM_FAR_RIGHT", 0x43),
   ("ABS_BASS", 0x48),
   ("ABS_HI_HAT", 0x49),
   ("BTN_FRET_FAR_UP", 0x224),
   ("BTN_FRET_UP", 0x225),
   ("BTN_FRET_MID", 0x226),
   ("BTN_FRET_LOW", 0x227),
   ("BTN_FRET_FAR_LOW", 0x228),
   ("BTN_STRUM_BAR_UP", 0x229),
   ("BTN_STRUM_BAR_DOWN", 0x22a),
   ("ABS_WHAMMY_BAR", 0x4b),
   ("ABS_FRET_BOARD", 0x4a)]

/-- A bare `#define` in C: redefining a macro to a different value is a
preprocessor error; redefining it to the same value, or defining a fresh
name, succeeds. -/
def defineStrict (env : Env) (name : String) (value : Nat) :
    Except String Env :=
  match env name with
  | some w => if w = value then Except.ok env else Except.error name
  | none => Except.ok (defineMacro env name value)

/-- A guarded block of the header, with the error-producing `#define`:
when `name` is already defined the `#ifndef` skips the define entirely,
otherwise the bare define is issued. -/
def guardedDefine (env : Env) (name : String) (value : Nat) :
    Except String Env :=
  match env name with
  | some _ => Except.ok env
  | none => defineStrict env name value

/-- Process a list of guarded definitions, propagating preprocessor
errors. -/
def applyDefsE (l : List (String × Nat)) (env : Env) : Except String Env :=
  l.foldlM (fun e p => guardedDefine e p.1 p.2) env

/-- Including `input-defs.h` in the error-aware model. -/
def includeHeaderE (env : Env) : Except String Env :=
  applyDefsE fallbackTable env

/- ## Helper lemmas -/

/-- A guarded define never changes a name that is already defined. -/
theorem defineIfUndef_defined {env : Env} {name n : String} {value w : Nat}
    (h : env n = some w) : defineIfUndef env name value n = some w := by
  unfold defineIfUndef
  cases hm : env name with
  | some u => exact h
  | none =>
    unfold defineMacro
    by_cases hn : n = name
    · subst hn
      rw [h] at hm
      cases hm
    · simp [hn, h]

/-- A guarded define for `name` leaves every other name untouched. -/
theorem defineIfUndef_ne {env : Env} {name n : String} {value : Nat}
    (h : n ≠ name) : defineIfUndef env name value n = env n := by
  unfold defineIfUndef
  cases env name with
  | some u => rfl
  | none => simp [defineMacro, h]

/-- A guarded define for an undefined `name` binds it to `value`. -/
theorem defineIfUndef_self_none {env : Env} {name : String} {value : Nat}
    (h : env name = none) : defineIfUndef env name value name = some value := by
  unfold defineIfUndef
  rw [h]
  simp [defineMacro]

/-- Processing any list of guarded definitions preserves every name that is
already defined. -/
theorem applyDefs_defined :
    ∀ (l : List (String × Nat)) (env : Env) {n : String} {w : Nat},
      env n = some w → applyDefs l env n = some w := by
  intro l
  induction l with
  | nil => intro env n w h; exact h
  | cons p t ih =>
    intro env n w h
    exact ih (defineIfUndef env p.1 p.2) (defineIfUndef_defined h)

/-- Processing a list of guarded definitions leaves every name that is not
among the list's names untouched. -/
theorem applyDefs_ne :
    ∀ (l : List (String × Nat)) (env : Env) {n : String},
      (∀ p ∈ l, p.1 ≠ n) → applyDefs l env n = env n := by
  intro l
  induction l with
  | nil => intro env n _; rfl
  | cons p t ih =>
    intro env n h
    have ht : ∀ q ∈ t, q.1 ≠ n := fun q hq => h q (List.mem_cons_of_mem p hq)
    have hstep : defineIfUndef env p.1 p.2 n = env n :=
      defineIfUndef_ne (Ne.symm (h p (List.mem_cons_self p t)))
    calc applyDefs (p :: t) env n
        = applyDefs t (defineIfUndef env p.1 p.2) n := rfl
      _ = defineIfUndef env p.1 p.2 n := ih _ ht
      _ = env n := hstep

/-- If the list's names are pairwise distinct, processing it binds each
listed name that was undefined to its listed value. -/
theorem applyDefs_mem_none :
    ∀ (l : List (String × Nat)) (env : Env) {s : String} {v : Nat},
      (l.map Prod.fst).Nodup → (s, v) ∈ l → env s = none →
      applyDefs l env s = some v := by
  intro l
  induction l with
  | nil => intro env s v _ hmem _; cases hmem
  | cons p t ih =>
    intro env s v hnd hmem hundef
    simp only [List.map_cons, List.nodup_cons] at hnd
    rcases List.mem_cons.mp hmem with heq | ht
    · have hp : p = (s, v) := heq.symm
      subst hp
      have hstep : defineIfUndef env s v s = some v :=
        defineIfUndef_self_none hundef
      exact applyDefs_defined t _ hstep
    · have hs : s ∈ t.map Prod.fst :=
        List.mem_map_of_mem Prod.fst ht
      have hne : s ≠ p.1 := fun h => hnd.1 (h ▸ hs)
      have hstep : defineIfUndef env p.1 p.2 s = env s :=
        defineIfUndef_ne hne
      exact ih _ hnd.2 ht (hstep.trans hundef)

/-- The 24 macro names of the table are pairwise distinct. -/
theorem fallbackTable_names_nodup : (fallbackTable.map Prod.fst).Nodup := by
  decide

/-- The 24 fallback values of the table are pairwise distinct. -/
theorem fallbackTable_values_nodup : (fallbackTable.map Prod.snd).Nodup := by
  decide

/-- A name outside the table differs from every name in it. -/
theorem not_mem_names {n : String} (h : n ∉ fallbackTable.map Prod.fst) :
    ∀ p ∈ fallbackTable, p.1 ≠ n :=
  fun p hp hpn => h (hpn ▸ List.mem_map_of_mem Prod.fst hp)

/-- Processing a list of definitions splits over list append. -/
theorem applyDefs_append (a b : List (String × Nat)) (env : Env) :
    applyDefs (a ++ b) env = applyDefs b (applyDefs a env) := by
  unfold applyDefs
  rw [List.foldl_append]

/-- The guarded define never errors and agrees with the pure model. -/
theorem guardedDefine_ok (env : Env) (name : String) (value : Nat) :
    guardedDefine env name value = Except.ok (defineIfUndef env name value) := by
  unfold guardedDefine defineIfUndef defineStrict
  cases env name with
  | some w => rfl
  | none => rfl

/-- The error-aware processing of any list of guarded definitions always
succeeds, returning the pure model's result. -/
theorem applyDefsE_ok :
    ∀ (l : List (String × Nat)) (env : Env),
      applyDefsE l env = Except.ok (applyDefs l env) := by
  intro l
  induction l with
  | nil => intro env; rfl
  | cons p t ih =>
    intro env
    show (guardedDefine env p.1 p.2 >>= fun e => applyDefsE t e) =
      Except.ok (applyDefs t (defineIfUndef env p.1 p.2))
    rw [guardedDefine_ok]
    exact ih (defineIfUndef env p.1 p.2)

/- ## Claims -/

/-- C1: the table transcribed from the source coincides with the spec's
table, and for every symbol of the table and every environment in which
that symbol is undefined, after inclusion of the header the symbol is
defined with exactly the fallback literal of the table. -/
theorem includeHeader_defines_fallback :
    fallbackTable = specTable ∧
    ∀ (s : String) (v : Nat) (env : Env),
      (s, v) ∈ fallbackTable → env s = none →
      includeHeader env s = some v := by
  refine ⟨rfl, ?_⟩
  intro s v env hmem hundef
  exact applyDefs_mem_none fallbackTable env fallbackTable_names_nodup hmem hundef

/-- Witness for C1: in the empty environment, `BTN_EAST` ends up defined
as `0x131`. -/
theorem includeHeader_defines_fallback_witness :
    includeHeader emptyEnv "BTN_EAST" = some 0x131 :=
  includeHeader_defines_fallback.2 "BTN_EAST" 0x131 emptyEnv (by decide) rfl

/-- C2: for every symbol of the table that the environment already defines,
inclusion of the header leaves its value unchanged. -/
theorem includeHeader_preserves_predefined (s : String) (v w : Nat) (env : Env)
    (hmem : (s, v) ∈ fallbackTable) (hdef : env s = some w) :
    includeHeader env s = some w :=
  applyDefs_defined fallbackTable env hdef

/-- Witness for C2: an environment predefining `BTN_EAST` as `999` keeps
that value after inclusion. -/
theorem includeHeader_preserves_predefined_witness :
    includeHeader (fun n => if n = "BTN_EAST" then some 999 else none)
      "BTN_EAST" = some 999 :=
  includeHeader_preserves_predefined "BTN_EAST" 0x131 999
    (fun n => if n = "BTN_EAST" then some 999 else none) (by decide) (by decide)

/-- C3: the table has 24 symbols and, for every initial environment, after
inclusion every symbol of the table resolves to exactly one value. -/
theorem includeHeader_total :
    fallbackTable.length = 24 ∧
    ∀ (env : Env) (p : String × Nat), p ∈ fallbackTable →
      ∃! w : Nat, includeHeader env p.1 = some w := by
  refine ⟨rfl, ?_⟩
  intro env p hmem
  obtain ⟨s, v⟩ := p
  cases hdef : env s with
  | none =>
    refine ⟨v, applyDefs_mem_none fallbackTable env fallbackTable_names_nodup
      hmem hdef, ?_⟩
    intro y hy
    have h := applyDefs_mem_none fallbackTable env fallbackTable_names_nodup
      hmem hdef
    exact Option.some.inj (hy.symm.trans h)
  | some w =>
    refine ⟨w, applyDefs_defined fallbackTable env hdef, ?_⟩
    intro y hy
    have h := applyDefs_defined fallbackTable env hdef
    exact Option.some.inj (hy.symm.trans h)

/-- Witness for C3: in the empty environment `BTN_EAST` resolves to exactly
one value. -/
theorem includeHeader_total_witness :
    ∃! w : Nat, includeHeader emptyEnv "BTN_EAST" = some w :=
  includeHeader_total.2 emptyEnv ("BTN_EAST", 0x131) (by decide)

/-- C4: inclusion of the header leaves every name outside the table
untouched: it neither defines, removes nor alters any such binding. -/
theorem includeHeader_frame (env : Env) (n : String)
    (h : n ∉ fallbackTable.map Prod.fst) :
    includeHeader env n = env n :=
  applyDefs_ne fallbackTable env (not_mem_names h)

/-- Witness for C4: the unrelated name `KEY_A` stays undefined in the empty
environment. -/
theorem includeHeader_frame_witness :
    includeHeader emptyEnv "KEY_A" = none :=
  includeHeader_frame emptyEnv "KEY_A" (by decide)

/-- C5: in the error-aware model, where an unguarded redefinition to a
different value is a preprocessor error, inclusion of the header always
succeeds: every definition is issued only under its `#ifndef` guard, so no
redefinition conflict can arise in any initial environment. -/
theorem includeHeaderE_no_error (env : Env) :
    includeHeaderE env = Except.ok (includeHeader env) :=
  applyDefsE_ok fallbackTable env

/-- C6: constants are immutable during processing: once a symbol is bound
to a value after processing the first `i` guarded blocks, it keeps exactly
that binding after processing any larger prefix of the header (so nothing
is redefined or undefined anywhere in the header). -/
theorem includeHeader_immutable (env : Env) (n : String) (w : Nat) (i j : Nat)
    (hij : i ≤ j) (h : applyDefs (fallbackTable.take i) env n = some w) :
    applyDefs (fallbackTable.take j) env n = some w := by
  have h1 : fallbackTable.take i = (fallbackTable.take j).take i := by
    rw [List.take_take, Nat.min_eq_left hij]
  have hsplit : fallbackTable.take i ++ (fallbackTable.take j).drop i
      = fallbackTable.take j := by
    rw [h1, List.take_append_drop]
  rw [← hsplit, applyDefs_append]
  rw [h1] at h
  exact applyDefs_defined _ _ (h1 ▸ h)

/-- Witness for C6: `BTN_EAST` is bound to `0x131` after the first block
and still bound to `0x131` after all 24 blocks. -/
theorem includeHeader_immutable_witness :
    applyDefs (fallbackTable.take 24) emptyEnv "BTN_EAST" = some 0x131 :=
  includeHeader_immutable emptyEnv "BTN_EAST" 0x131 1 24 (by decide) (by decide)

/-- C7: inclusion of the header is idempotent: including it twice yields
the same environment as including it once. -/
theorem includeHeader_idempotent (env : Env) :
    includeHeader (includeHeader env) = includeHeader env := by
  funext n
  by_cases h : n ∈ fallbackTable.map Prod.fst
  · obtain ⟨⟨s, v⟩, hp, rfl⟩ := List.mem_map.mp h
    cases hdef : includeHeader env s with
    | some w => exact applyDefs_defined fallbackTable _ hdef
    | none =>
      exfalso
      cases he : env s with
      | some w =>
        have := applyDefs_defined fallbackTable env he
        rw [includeHeader] at hdef
        rw [this] at hdef
        cases hdef
      | none =>
        have := applyDefs_mem_none fallbackTable env
          fallbackTable_names_nodup hp he
        rw [includeHeader] at hdef
        rw [this] at hdef
        cases hdef
  · exact applyDefs_ne fallbackTable (includeHeader env) (not_mem_names h)

/-- C8: the 24 fallback values are pairwise distinct, so starting from no
predefined symbols, distinct symbols of the table map to distinct event
codes. -/
theorem fallback_values_distinct :
    (fallbackTable.map Prod.snd).Nodup ∧
    ∀ p ∈ fallbackTable, ∀ q ∈ fallbackTable, p.1 ≠ q.1 →
      includeHeader emptyEnv p.1 ≠ includeHeader emptyEnv q.1 := by
  refine ⟨fallbackTable_values_nodup, ?_⟩
  intro p hp q hq hne
  obtain ⟨s, v⟩ := p
  obtain ⟨t, w⟩ := q
  show applyDefs fallbackTable emptyEnv s ≠ applyDefs fallbackTable emptyEnv t
  rw [applyDefs_mem_none fallbackTable emptyEnv fallbackTable_names_nodup hp rfl,
      applyDefs_mem_none fallbackTable emptyEnv fallbackTable_names_nodup hq rfl]
  intro hvw
  have hv : v = w := Option.some.inj hvw
  subst hv
  have hpq : ((s, v) : String × Nat) = (t, v) :=
    List.inj_on_of_nodup_map fallbackTable_values_nodup hp hq rfl
  exact hne (congrArg Prod.fst hpq)

/-- Witness for C8: `BTN_EAST` and `BTN_SOUTH` receive distinct codes in
the empty environment. -/
theorem fallback_values_distinct_witness :
    includeHeader emptyEnv "BTN_EAST" ≠ includeHeader emptyEnv "BTN_SOUTH" :=
  fallback_values_distinct.2 ("BTN_EAST", 0x131) (by decide)
    ("BTN_SOUTH", 0x130) (by decide) (by decide)

/-- Pointwise-equal environments stay pointwise equal under processing any
list of guarded definitions. -/
theorem applyDefs_congr :
    ∀ (l : List (String × Nat)) (e₁ e₂ : Env), (∀ n, e₁ n = e₂ n) →
      ∀ n, applyDefs l e₁ n = applyDefs l e₂ n := by
  intro l
  induction l with
  | nil => intro e₁ e₂ h n; exact h n
  | cons p t ih =>
    intro e₁ e₂ h n
    apply ih
    intro m
    show defineIfUndef e₁ p.1 p.2 m = defineIfUndef e₂ p.1 p.2 m
    unfold defineIfUndef defineMacro
    rw [h p.1]
    cases e₂ p.1 with
    | some w => exact h m
    | none =>
      by_cases hm : m = p.1
      · simp [hm]
      · simp [hm, h m]

/-- C9: inclusion is deterministic and depends only on which symbols are
defined and on their values: environments that agree on every name yield
results agreeing on every name. -/
theorem includeHeader_deterministic (e₁ e₂ : Env)
    (h : ∀ n, e₁ n = e₂ n) :
    ∀ n, includeHeader e₁ n = includeHeader e₂ n :=
  applyDefs_congr fallbackTable e₁ e₂ h

/-- Witness for C9: two syntactically different but pointwise-equal empty
environments give the same binding for `BTN_EAST`. -/
theorem includeHeader_deterministic_witness :
    includeHeader emptyEnv "BTN_EAST" =
      includeHeader (fun _ => none) "BTN_EAST" :=
  includeHeader_deterministic emptyEnv (fun _ => none) (fun _ => rfl) "BTN_EAST"

end InputDefs
